import Mathlib

set_option maxRecDepth 10000

/-!
Verification development for the SHA1-E3 digest construction engine
(`sha1_sponge_collatz_enhanced.py`).

The Python source is shallowly embedded: bytes are `Nat` values masked with
`&&& 0xFF`, 32-bit words are `Nat` values masked with `&&& 0xFFFFFFFF`,
byte buffers are `List Nat`, and the in-place array loops of the source are
modelled as folds that update the list with `List.set` in the same traversal
order as the source.  Python `x & ~m` on unbounded non-negative ints is
modelled as `x ^^^ (x &&& m)` (clearing the bits of `m`), which agrees with
Python for every non-negative `x`.  `while` loops with an iteration cap are
modelled by structural recursion on a fuel argument equal to the cap, and the
loop condition is re-checked inside each step exactly as in the source.

The two external hash primitives used by the orchestrator
(`hashlib.sha1().hexdigest()` and `hashlib.blake2b(digest_size=32)`) are not
part of this repository; the digest functions are parametrised by them, and
the theorems that need their output-length contracts take those contracts as
hypotheses.
-/

namespace SHA1E3

/-- The fixed 256-entry substitution box (source lines 25-42). -/
def SBOX : List Nat := [
  0x63, 0x7C, 0x77, 0x7B, 0xF2, 0x6B, 0x6F, 0xC5, 0x30, 0x01, 0x67, 0x2B, 0xFE, 0xD7, 0xAB, 0x76,
  0xCA, 0x82, 0xC9, 0x7D, 0xFA, 0x59, 0x47, 0xF0, 0xAD, 0xD4, 0xA2, 0xAF, 0x9C, 0xA4, 0x72, 0xC0,
  0xB7, 0xFD, 0x93, 0x26, 0x36, 0x3F, 0xF7, 0xCC, 0x34, 0xA5, 0xE5, 0xF1, 0x71, 0xD8, 0x31, 0x15,
  0x04, 0xC7, 0x23, 0xC3, 0x18, 0x96, 0x05, 0x9A, 0x07, 0x12, 0x80, 0xE2, 0xEB, 0x27, 0xB2, 0x75,
  0x09, 0x83, 0x2C, 0x1A, 0x1B, 0x6E, 0x5A, 0xA0, 0x52, 0x3B, 0xD6, 0xB3, 0x29, 0xE3, 0x2F, 0x84,
  0x53, 0xD1, 0x00, 0xED, 0x20, 0xFC, 0xB1, 0x5B, 0x6A, 0xCB, 0xBE, 0x39, 0x4A, 0x4C, 0x58, 0xCF,
  0xD0, 0xEF, 0xAA, 0xFB, 0x43, 0x4D, 0x33, 0x85, 0x45, 0xF9, 0x02, 0x7F, 0x50, 0x3C, 0x9F, 0xA8,
  0x51, 0xA3, 0x40, 0x8F, 0x92, 0x9D, 0x38, 0xF5, 0xBC, 0xB6, 0xDA, 0x21, 0x10, 0xFF, 0xF3, 0xD2,
  0xCD, 0x0C, 0x13, 0xEC, 0x5F, 0x97, 0x44, 0x17, 0xC4, 0xA7, 0x7E, 0x3D, 0x64, 0x5D, 0x19, 0x73,
  0x60, 0x81, 0x4F, 0xDC, 0x22, 0x2A, 0x90, 0x88, 0x46, 0xEE, 0xB8, 0x14, 0xDE, 0x5E, 0x0B, 0xDB,
  0xE0, 0x32, 0x3A, 0x0A, 0x49, 0x06, 0x24, 0x5C, 0xC2, 0xD3, 0xAC, 0x62, 0x91, 0x95, 0xE4, 0x79,
  0xE7, 0xC8, 0x37, 0x6D, 0x8D, 0xD5, 0x4E, 0xA9, 0x6C, 0x56, 0xF4, 0xEA, 0x65, 0x7A, 0xAE, 0x08,
  0xBA, 0x78, 0x25, 0x2E, 0x1C, 0xA6, 0xB4, 0xC6, 0xE8, 0xDD, 0x74, 0x1F, 0x4B, 0xBD, 0x8B, 0x8A,
  0x70, 0x3E, 0xB5, 0x66, 0x48, 0x03, 0xF6, 0x0E, 0x61, 0x35, 0x57, 0xB9, 0x86, 0xC1, 0x1D, 0x9E,
  0xE1, 0xF8, 0x98, 0x11, 0x69, 0xD9, 0x8E, 0x94, 0x9B, 0x1E, 0x87, 0xE9, 0xCE, 0x55, 0x28, 0xDF,
  0x8C, 0xA1, 0x89, 0x0D, 0xBF, 0xE6, 0x42, 0x68, 0x41, 0x99, 0x2D, 0x0F, 0xB0, 0x54, 0xBB, 0x16]

/-- Multipliers for modular arithmetic (source line 46). -/
def MULTIPLIERS : List Nat := [0x9D, 0xA3, 0xB7, 0xC1, 0xD3, 0xE5, 0xF7]

/-- Prime byte table used for mixing operations (source line 49). -/
def PRIMES : List Nat := [0x29, 0x43, 0x5F, 0x71, 0x8D, 0xB3, 0xD1, 0xE9]

/-- `SBOX[byte & 0xFF]` (source lines 51-53). -/
def sbox_scramble (byte : Nat) : Nat := SBOX.getD (byte &&& 0xFF) 0

/-- 8-bit rotate left by `n & 7` bits (source lines 55-58). -/
def rotl (x n : Nat) : Nat :=
  let n := n &&& 7
  ((x <<< n) ||| (x >>> (8 - n))) &&& 0xFF

/-- 8-bit rotate right by `n & 7` bits (source lines 60-63). -/
def rotr (x n : Nat) : Nat :=
  let n := n &&& 7
  ((x >>> n) ||| (x <<< (8 - n))) &&& 0xFF

/-- Number of set bits among the low 8 bits.  The source computes popcounts
with `bin(b).count(..)`; every call site first masks its argument to a byte,
so an 8-bit popcount is an exact model. -/
def popcount (b : Nat) : Nat :=
  (List.range 8).foldl (fun a j => a + ((b >>> j) &&& 1)) 0

/-- Forward pass of one `global_mix` round (source lines 76-86); the buffer is
updated in place, so later indices read already-updated neighbours. -/
def gmForward (r : Nat) (buf : List Nat) : List Nat :=
  let N := buf.length
  (List.range N).foldl (fun o i =>
    let b := o.getD i 0
    let b := b ^^^ rotl (o.getD ((i + N - 1) % N) 0) (2 + r)
    let b := b ^^^ rotr (o.getD ((i + N - 2) % N) 0) (3 + r)
    let b := b ^^^ sbox_scramble (o.getD ((i + 1) % N) 0)
    let b := b ^^^ rotl (o.getD ((i + 2) % N) 0) (1 + r)
    o.set i (sbox_scramble b)) buf

/-- Backward pass of one `global_mix` round (source lines 89-96). -/
def gmBackward (r : Nat) (buf : List Nat) : List Nat :=
  let N := buf.length
  (List.range N).reverse.foldl (fun o i =>
    let b := rotl (o.getD i 0) 3
    let b := b ^^^ sbox_scramble (o.getD ((i + 1) % N) 0)
    let b := b ^^^ rotr (o.getD ((i + N - 1) % N) 0) 2
    o.set i ((b * MULTIPLIERS.getD (r % MULTIPLIERS.length) 0) &&& 0xFF)) buf

/-- Two-round neighbour-mixing diffusion network (source lines 65-98).
Python indices `(i-1) % N` and `(i-2) % N` are written `(i + N - 1) % N` and
`(i + N - 2) % N`, which agree for the buffer sizes used (`N ≥ 8`). -/
def global_mix (buf : List Nat) : List Nat :=
  gmBackward 1 (gmForward 1 (gmBackward 0 (gmForward 0 buf)))

/-- First bounded loop of `balance_byte` (source lines 827-836): while more
than 5 bits are set and fewer than 8 attempts were made, clear one set bit
chosen by a value-dependent index.  `b &= ~(1 << k)` is modelled as
`b ^^^ (b &&& (1 <<< k))`. -/
def balanceLoop1 : Nat → Nat → Nat → Nat → Nat × Nat × Nat
  | 0, b, bits, attempts => (b, bits, attempts)
  | fuel + 1, b, bits, attempts =>
    if bits > 5 ∧ attempts < 8 then
      let set_bits := (List.range 8).filter (fun i => (b &&& (1 <<< i)) != 0)
      if set_bits = [] then (b, bits, attempts)
      else
        let idx := ((b * PRIMES.getD (attempts % PRIMES.length) 0) + bits) % set_bits.length
        let b' := b ^^^ (b &&& (1 <<< set_bits.getD idx 0))
        balanceLoop1 fuel b' (popcount b') (attempts + 1)
    else (b, bits, attempts)

/-- Second bounded loop of `balance_byte` (source lines 838-847): while fewer
than 3 bits are set and fewer than 8 attempts were made in total, set one
clear bit chosen by a value-dependent index. -/
def balanceLoop2 : Nat → Nat → Nat → Nat → Nat × Nat × Nat
  | 0, b, bits, attempts => (b, bits, attempts)
  | fuel + 1, b, bits, attempts =>
    if bits < 3 ∧ attempts < 8 then
      let clear_bits := (List.range 8).filter (fun i => (b &&& (1 <<< i)) == 0)
      if clear_bits = [] then (b, bits, attempts)
      else
        let idx := ((b * PRIMES.getD ((attempts + 3) % PRIMES.length) 0) + bits) % clear_bits.length
        let b' := b ||| (1 <<< clear_bits.getD idx 0)
        balanceLoop2 fuel b' (popcount b') (attempts + 1)
    else (b, bits, attempts)

/-- Gentle best-effort byte balancing (source lines 813-854).  The unused
`target_bits` parameter of the source (defaulted to 4 and never read) is
omitted. -/
def balance_byte (byte : Nat) : Nat :=
  let b := byte &&& 0xFF
  let bits := popcount b
  if bits ≤ 5 ∧ bits ≥ 3 then b
  else
    let orig := b
    let r1 := balanceLoop1 8 b bits 0
    let r2 := balanceLoop2 8 r1.1 r1.2.1 r1.2.2
    let final_bits := popcount r2.1
    if final_bits > 5 ∨ final_bits < 3 then orig else r2.1

/-- The local two-element prime list declared inside
`strengthened_collatz_sequence` (source line 425), which shadows the global
byte table `PRIMES` there; it is given a distinct name here. -/
def CPRIMES : List Nat := [0x6D2B79F5, 0x1234567D]

/-- 32-bit mask. -/
def M32 : Nat := 0xFFFFFFFF

/-- The 32 bits of a word, most significant first, as produced by
`format(val, ..32b..)` in the source. -/
def bits32 (v : Nat) : List Nat :=
  (List.range 32).map (fun k => (v >>> (31 - k)) &&& 1)

/-- Run-length encoding helper: `lastBit` is the bit of the current run and
`currentRun` its length so far (source lines 443-452). -/
def rleAux : List Nat → Nat → Nat → List (Nat × Nat)
  | [], lastBit, currentRun => [(lastBit, currentRun)]
  | bit :: rest, lastBit, currentRun =>
    if bit = lastBit then rleAux rest lastBit (currentRun + 1)
    else (lastBit, currentRun) :: rleAux rest bit 1

/-- Run-length encoding of a bit list, in order of appearance.  The source
starts with `last_bit = None`, so the first bit always opens the first run. -/
def rle : List Nat → List (Nat × Nat)
  | [] => []
  | bit :: rest => rleAux rest bit 1

/-- Break over-long runs (source lines 455-461): for each run longer than 14
bits starting at bit offset `pos` (MSB-first), flip the bits at offsets
`pos + 7, pos + 14, ...` inside the run that lie below 32.
`(length - 1) / 7` is the element count of Python `range(pos+7, pos+length, 7)`. -/
def runBreakFlips : List (Nat × Nat) → Nat → Nat → Nat
  | [], _, val => val
  | (_, length) :: rest, pos, val =>
    let val :=
      if length > 14 then
        ((List.range' (pos + 7) ((length - 1) / 7) 7).filter (fun j => j < 32)).foldl
          (fun v j => v ^^^ (1 <<< (31 - j))) val
      else val
    runBreakFlips rest (pos + length) val

/-- Arithmetic phase of `mix_state` (source lines 431-435): rotate left 7,
multiply by the first local prime, rotate left 13, multiply by the second,
all modulo 2^32. -/
def msArith (val : Nat) : Nat :=
  let val := ((val <<< 7) ||| (val >>> 25)) &&& M32
  let val := (val * CPRIMES.getD 0 0) &&& M32
  let val := ((val <<< 13) ||| (val >>> 19)) &&& M32
  (val * CPRIMES.getD 1 0) &&& M32

/-- Run-breaking phase of `mix_state` (source lines 437-461). -/
def runBreak (val : Nat) : Nat := runBreakFlips (rle (bits32 val)) 0 val

/-- `mix_state` before its final byte-balance phase. -/
def preMix (val : Nat) : Nat := runBreak (msArith val)

/-- One step of the byte-balance phase of `mix_state` at byte offset `i`
(source lines 464-470): a byte with fewer than 3 set bits gets `0x55` ORed
in, a byte with more than 5 set bits gets its `0x55` bits cleared
(`val &= ~(0x55 << i)`, modelled as XOR of the common bits). -/
def msBalStep (v i : Nat) : Nat :=
  let byte := (v >>> i) &&& 0xFF
  let c := popcount byte
  if c < 3 then v ||| (0x55 <<< i)
  else if c > 5 then v ^^^ (v &&& (0x55 <<< i))
  else v

/-- Byte-balance phase of `mix_state` over the four byte offsets. -/
def msBalance (v : Nat) : Nat := [0, 8, 16, 24].foldl msBalStep v

/-- Nonlinear state-mixing function of the Collatz generator (source lines
427-487).  The trailing final-verification scan of the source (lines 472-485)
only updates statistics variables that are never read back for control flow,
so it has no effect on the returned value and is omitted. -/
def mix_state (val : Nat) : Nat := msBalance (preMix val)

/-- The byte-level function applied by the `mix_state` byte-balance phase to
each of the four bytes in isolation (used to state theorems about it). -/
def mixBalByte (b : Nat) : Nat :=
  if popcount b < 3 then b ||| 0x55
  else if popcount b > 5 then b &&& 0xAA
  else b

/-- One step of the per-iteration bit-balance control of the main loop at
byte offset `i` (source lines 511-515): flip the lowest bit of any byte
whose popcount is outside [3,5]. -/
def loopBalStep (s i : Nat) : Nat :=
  let byte := (s >>> i) &&& 0xFF
  let c := popcount byte
  if c < 3 ∨ c > 5 then s ^^^ (1 <<< i) else s

/-- Per-iteration bit-balance control of the main loop over the four bytes. -/
def loopBalance (s : Nat) : Nat := [0, 8, 16, 24].foldl loopBalStep s

/-- State transition of one first-loop iteration before the cycle guard
(source lines 498-504): mix, then branch on the parity of the mixed state. -/
def collatzTransition (state : Nat) : Nat :=
  let s := mix_state state
  if s % 2 = 0 then mix_state (s >>> 1)
  else mix_state ((3 * s + 1) &&& M32)

/-- Cycle guard of the first loop (source lines 507-508): if the new state
was seen before (membership in the set of all previously recorded states),
replace it with `mix_state (prev_state XOR sequence_length)`. -/
def collatzGuard (s2 : Nat) (prevs : List Nat) (prev_state len : Nat) : Nat :=
  if s2 ∈ prevs then mix_state (prev_state ^^^ len) else s2

/-- First (bounded) loop of `strengthened_collatz_sequence` (source lines
489-515), with fuel equal to the 100-iteration cap.  State:
`(sequence, state, previous_states, sequence_length)`. -/
def collatzLoop1 : Nat → Nat → List Nat → List Nat → Nat → List Nat × Nat × List Nat × Nat
  | 0, state, seq, prevs, len => (seq, state, prevs, len)
  | fuel + 1, state, seq, prevs, len =>
    if state ≠ 1 ∧ len < 100 then
      let seq' := seq ++ [state]
      let len' := len + 1
      let prevs' := prevs ++ [state]
      let s2 := collatzTransition state
      let s3 := collatzGuard s2 prevs' state len'
      collatzLoop1 fuel (loopBalance s3) seq' prevs' len'
    else (seq, state, prevs, len)

/-- Modelled from the spec wording for the first-loop cycle guard ("if the
new state equals prev_state, replace it"), to be compared with the source
guard `collatzGuard`, which tests membership in all previous states. -/
def collatzGuardClaimed (s2 : Nat) (prev_state len : Nat) : Nat :=
  if s2 = prev_state then mix_state (prev_state ^^^ len) else s2

/-- Modelled from the spec wording: the first loop with the claimed
equality-only cycle guard in place of the set-membership guard. -/
def collatzLoop1Claimed : Nat → Nat → List Nat → List Nat → Nat → List Nat × Nat × List Nat × Nat
  | 0, state, seq, prevs, len => (seq, state, prevs, len)
  | fuel + 1, state, seq, prevs, len =>
    if state ≠ 1 ∧ len < 100 then
      let seq' := seq ++ [state]
      let len' := len + 1
      let prevs' := prevs ++ [state]
      let s2 := collatzTransition state
      let s3 := collatzGuardClaimed s2 state len'
      collatzLoop1Claimed fuel (loopBalance s3) seq' prevs' len'
    else (seq, state, prevs, len)

/-- One step of the byte-rewrite `state = (state & ~(0xFF << i)) | (balance_byte(byte) << i)`
used throughout the second loop (source lines 520-522 etc.). -/
def wordBalStep (s i : Nat) : Nat :=
  let byte := (s >>> i) &&& 0xFF
  (s ^^^ (s &&& (0xFF <<< i))) ||| (balance_byte byte <<< i)

/-- Apply `balance_byte` to each of the four bytes of a word in place. -/
def wordBalance (s : Nat) : Nat := [0, 8, 16, 24].foldl wordBalStep s

/-- Python `sequence[-4:]`: the last at-most-four recorded values. -/
def lastFour (l : List Nat) : List Nat := l.drop (l.length - 4)

/-- History mixing of the second loop (source lines 553-556). -/
def historyMix (seq : List Nat) : Nat :=
  (lastFour seq).enum.foldl
    (fun h p => h ^^^ ((p.2 * CPRIMES.getD (p.1 % CPRIMES.length) 0) &&& M32)) 0

/-- Body of one second-loop iteration after the initial byte balance and
append (source lines 532-573): state transitions with pattern control, the
periodic history mixing, the cycle guard, and the final `mix_state`.
`sB` is the balanced state recorded this iteration (`prev_state`), `seq'`,
`prevs'` and `len'` are the sequence, previous-state set and counter after
the append. -/
def collatzBody2 (sB : Nat) (seq' prevs' : List Nat) (len' : Nat) : Nat :=
  let sT :=
    if sB % 2 = 0 then
      let shifted := ((sB >>> 1) ^^^ (sB <<< 2)) &&& M32
      wordBalance (mix_state shifted)
    else
      let base := (3 * sB + 1) &&& M32
      let shifted := ((base >>> 3) ^^^ (base <<< 5)) &&& M32
      wordBalance (mix_state shifted)
  let sH := if len' % 4 = 0 then wordBalance (sT ^^^ historyMix seq') else sT
  let sC :=
    if sH ∈ prevs' then
      let ns := ((sB * CPRIMES.getD 0 0) + len') &&& M32
      let ns := ns ^^^ (if seq'.length ≥ 4 then (lastFour seq').sum else sB)
      wordBalance ns
    else sH
  mix_state sC

/-- Second loop of `strengthened_collatz_sequence` (source lines 517-575),
with fuel equal to the 1000-iteration cap.  The loop is entered with the
state, sequence and previous-state set left by the first loop and its own
`sequence_length` counter restarted at 0.  Result: `(sequence, state)`. -/
def collatzLoop2 : Nat → Nat → List Nat → List Nat → Nat → List Nat × Nat
  | 0, state, seq, _, _ => (seq, state)
  | fuel + 1, state, seq, prevs, len =>
    if state ≠ 1 ∧ len < 1000 then
      let sB := wordBalance state
      let seq' := seq ++ [sB]
      let len' := len + 1
      let prevs' := prevs ++ [sB]
      collatzLoop2 fuel (collatzBody2 sB seq' prevs' len') seq' prevs' len'
    else (seq, state)

/-- Strengthened Collatz sequence generator (source lines 414-575): the
bounded 100-step first loop followed by the second loop capped at 1000
steps, sharing the sequence and previous-state set. -/
def strengthened_collatz_sequence (seed : Nat) : List Nat :=
  let r1 := collatzLoop1 100 (seed &&& M32) [] [] 0
  (collatzLoop2 1000 r1.2.1 r1.1 r1.2.2.1 0).1

/-- First scan of the JIT `mix_state_jit` run detection (source lines
318-331): the length of the longest run of equal bits, where runs of length
1 are never recorded (the maximum only updates when a bit repeats). -/
def jitMaxRun (val : Nat) : Nat :=
  ((List.range 32).foldl (fun acc bit_pos =>
    let bit := (val >>> (31 - bit_pos)) &&& 1
    if some bit = acc.1 then
      let r := acc.2.1 + 1
      (some bit, r, max acc.2.2 r)
    else (some bit, 1, acc.2.2)) ((none : Option Nat), 0, 0)).2.2

/-- Second scan of the JIT run breaking (source lines 335-346): during the
scan, flip the current bit of the (already mutated) value whenever the
current run length exceeds 14 and is divisible by 7. -/
def jitRunBreak (val : Nat) : Nat :=
  ((List.range 32).foldl (fun acc bit_pos =>
    let v := acc.1
    let bit := (v >>> (31 - bit_pos)) &&& 1
    if some bit = acc.2.1 then
      let r := acc.2.2 + 1
      let v' := if r > 14 ∧ r % 7 = 0 then v ^^^ (1 <<< (31 - bit_pos)) else v
      (v', some bit, r)
    else (v, some bit, 1)) (val, (none : Option Nat), 0)).1

/-- JIT variant `mix_state_jit` (source lines 310-361): same arithmetic
phase and same byte-balance phase as the pure `mix_state` (the JIT balance
loop at lines 349-359 computes exactly `msBalance`), but run breaking only
happens when the first scan found a run longer than 14, and it flips
different bits than the pure version. -/
def mixStateJit (val : Nat) : Nat :=
  let v := msArith val
  let v := if jitMaxRun v > 14 then jitRunBreak v else v
  msBalance v

/-- The single loop of `_strengthened_collatz_sequence_jit` (source lines
363-394).  The pre-allocated 1000-slot buffer never fills before the
100-step cap, so the `seq_len >= sequence.size` early break is dead.  The
cycle guard compares against `prev_state` only. -/
def collatzLoop1Jit : Nat → Nat → List Nat → Nat → List Nat × Nat
  | 0, state, seq, _ => (seq, state)
  | fuel + 1, state, seq, len =>
    if state ≠ 1 ∧ len < 100 then
      let seq' := seq ++ [state]
      let len' := len + 1
      let s1 := mixStateJit state
      let s2 := if s1 % 2 = 0 then mixStateJit (s1 >>> 1)
                else mixStateJit ((3 * s1 + 1) &&& M32)
      let s3 := if s2 = state then mixStateJit (state ^^^ len') else s2
      collatzLoop1Jit fuel (loopBalance s3) seq' len'
    else (seq, state)

/-- JIT variant `_strengthened_collatz_sequence_jit` (source lines 298-397). -/
def strengthenedCollatzSequenceJit (seed : Nat) : List Nat :=
  (collatzLoop1Jit 100 (seed &&& M32) [] 0).1

/-- Buffer padding of `enhanced_block_mixing` (source lines 671-676): append
S-box filler bytes until the buffer reaches `sz`; each filler depends on the
current buffer length.  Called with fuel `sz`, which bounds the number of
appends. -/
def padBufferAux (sz pad_base k3 : Nat) : Nat → List Nat → List Nat
  | 0, buf => buf
  | fuel + 1, buf =>
    if buf.length < sz then
      padBufferAux sz pad_base k3 fuel
        (buf ++ [sbox_scramble ((pad_base + buf.length * k3) &&& 0xFF)])
    else buf

/-- Chunk padding (source lines 683-687): extend a short chunk to 8 bytes
with the recurrence `pad_val = sbox((pad_val * k2 + k3) & 0xFF)`. -/
def padChunkAux (k2 k3 : Nat) : Nat → Nat → List Nat → List Nat
  | 0, _, c => c
  | fuel + 1, pad_val, c =>
    if c.length < 8 then
      let pv := sbox_scramble ((pad_val * k2 + k3) &&& 0xFF)
      padChunkAux k2 k3 fuel pv (c ++ [pv])
    else c

/-- Split the buffer into 8-byte chunks, padding a short final chunk
(source lines 679-688); `i` is the running byte offset of the chunk. -/
def buildChunks (k1 k2 k3 : Nat) : Nat → Nat → List Nat → List (List Nat)
  | 0, _, _ => []
  | fuel + 1, i, l =>
    if l = [] then []
    else
      let chunk := l.take 8
      let chunk := if chunk.length < 8 then padChunkAux k2 k3 8 ((k1 + i) &&& 0xFF) chunk
                   else chunk
      chunk :: buildChunks k1 k2 k3 fuel (i + 8) (l.drop 8)

/-- Mix a chunk with the previous processed chunk (source lines 696-698). -/
def mixWithPrev (pos : Nat) (prev c : List Nat) : List Nat :=
  c.enum.map (fun p => p.2 ^^^ rotl (prev.getD p.1 0) ((pos + p.1) &&& 7))

/-- Per-byte nonlinear transform of a chunk (source lines 706-714). -/
def chunkTransform (pos k1 k3 idx : Nat) (c : List Nat) : List Nat :=
  c.enum.map (fun p =>
    let x := sbox_scramble p.2
    let x := rotl x ((pos + idx + p.1) &&& 7)
    let x := (x * k3 + k1) &&& 0xFF
    sbox_scramble x)

/-- Sequential chunk processing of `enhanced_block_mixing` (source lines
690-722): each chunk after the first is mixed with the previous processed
chunk, then diffused, transformed, diffused again and appended. -/
def processChunks (pos k1 k3 : Nat) : List (List Nat) → Option (List Nat) → Nat → List Nat
  | [], _, _ => []
  | c :: rest, prev, idx =>
    let c1 := match prev with
      | none => c
      | some p => mixWithPrev pos p c
    let c4 := global_mix (chunkTransform pos k1 k3 idx (global_mix c1))
    c4 ++ processChunks pos k1 k3 rest (some c4) (idx + 1)

/-- Chunk processing of the JIT mixer (source lines 172-217): identical
formulas, but `prev_chunk` starts as eight zero bytes and the first chunk is
recognised by `chunk_start > 0`.  Its fixed-size result buffer with
`copy_size` and early break is equivalent to concatenation followed by
truncation to `output_size`, which the caller performs. -/
def processChunksJit (pos k1 k3 : Nat) : List (List Nat) → List Nat → Nat → List Nat
  | [], _, _ => []
  | c :: rest, prev, idx =>
    let c1 := if idx > 0 then mixWithPrev pos prev c else c
    let c4 := global_mix (chunkTransform pos k1 k3 idx (global_mix c1))
    c4 ++ processChunksJit pos k1 k3 rest c4 (idx + 1)

/-- Forward cross-byte XOR pass with distance 1 and rotation 3 (source
lines 739-740), updating in place. -/
def fwdPass (res : List Nat) : List Nat :=
  let N := res.length
  (List.range N).foldl (fun o i =>
    o.set i ((o.getD i 0) ^^^ rotl (o.getD ((i + 1) % N) 0) 3)) res

/-- Forward cross-byte XOR pass with distance 5 and rotation 5 (source
lines 743-744). -/
def farPass (res : List Nat) : List Nat :=
  let N := res.length
  (List.range N).foldl (fun o i =>
    o.set i ((o.getD i 0) ^^^ rotl (o.getD ((i + 5) % N) 0) 5)) res

/-- Backward cross-byte XOR pass with distance 2 and rotation 4 (source
lines 747-748); Python `(i-2) % N` is written `(i + N - 2) % N`. -/
def backPass (res : List Nat) : List Nat :=
  let N := res.length
  (List.range N).reverse.foldl (fun o i =>
    o.set i ((o.getD i 0) ^^^ rotl (o.getD ((i + N - 2) % N) 0) 4)) res

/-- Final S-box pass (source lines 751-752). -/
def sboxPass (res : List Nat) : List Nat := res.map sbox_scramble

/-- Decorrelation pass `result[i] ^= sbox(result[(7i+3) % N])` (source
lines 762-763), in place. -/
def decorPass (res : List Nat) : List Nat :=
  let N := res.length
  (List.range N).foldl (fun o i =>
    o.set i ((o.getD i 0) ^^^ sbox_scramble (o.getD ((i * 7 + 3) % N) 0))) res

/-- Palindrome fold `result[i] ^= result[N-1-i]` (source lines 766-767), in
place, so the second half sees the already-updated first half. -/
def mirrorPass (res : List Nat) : List Nat :=
  let N := res.length
  (List.range N).foldl (fun o i =>
    o.set i ((o.getD i 0) ^^^ (o.getD (N - 1 - i) 0))) res

/-- Value-dependent permutation build (source lines 771-774): a swap scan of
`perm = [0..N-1]` from `N-1` down to 1 with index `j` derived from the
(unmodified) buffer contents. -/
def permBuild (res : List Nat) : List Nat :=
  let N := res.length
  ((List.range N).drop 1).reverse.foldl (fun perm i =>
    let j := ((res.getD i 0) + (res.getD (N - 1 - i) 0)) % (i + 1)
    let pi := perm.getD i 0
    let pj := perm.getD j 0
    (perm.set i pj).set j pi) (List.range N)

/-- Inside-out shuffle and cross-S-box mixing (source lines 769-779): XOR
each byte of the unshuffled buffer with the S-box image of the shuffled
copy. -/
def permStep (res : List Nat) : List Nat :=
  let N := res.length
  let perm := permBuild res
  let shuffled := (List.range N).map (fun i => res.getD (perm.getD i 0) 0)
  (List.range N).map (fun i => (res.getD i 0) ^^^ sbox_scramble (shuffled.getD i 0))

/-- Longest-run scan over the bit stream, MSB-first per byte (source lines
783-799); runs of length 1 never update the maximum. -/
def maxRunOf (res : List Nat) : Nat :=
  ((List.range (res.length * 8)).foldl (fun acc i =>
    let byte_idx := i / 8
    let bit_pos := 7 - (i % 8)
    let bit := ((res.getD byte_idx 0) >>> bit_pos) &&& 1
    if some bit = acc.1 then
      let rl := acc.2.1 + 1
      (some bit, rl, max acc.2.2 rl)
    else (some bit, 1, acc.2.2)) ((none : Option Nat), 0, 0)).2.2

/-- Run-breaking repair pass `break_long_runs` (source lines 610-636): scan
the bit stream in place; when the current run exceeds 14, flip the current
bit if a value-dependent prime pattern selects it. -/
def break_long_runs (data : List Nat) : List Nat :=
  ((List.range (data.length * 8)).foldl (fun acc i =>
    let out := acc.1
    let byte_idx := i / 8
    let bit_pos := 7 - (i % 8)
    let current := ((out.getD byte_idx 0) >>> bit_pos) &&& 1
    let cr : Option Nat × Nat :=
      if some current = acc.2.1 then (acc.2.1, acc.2.2 + 1) else (some current, 1)
    if cr.2 > 14 then
      let flip_byte := out.getD byte_idx 0
      let flip_pattern := PRIMES.getD ((flip_byte + i) % PRIMES.length) 0
      if (flip_pattern &&& (1 <<< (i % 3))) ≠ 0 then
        (out.set byte_idx ((out.getD byte_idx 0) ^^^ (1 <<< bit_pos)),
         some ((cr.1.getD 0) ^^^ 1), 1)
      else (out, cr.1, cr.2)
    else (out, cr.1, cr.2)) (data, (none : Option Nat), 0)).1

/-- Final gentle balance of the pure mixer (source lines 806-809): apply
`balance_byte` to bytes whose popcount is outside [3,5]. -/
def finalBalancePass (res : List Nat) : List Nat :=
  res.map (fun b => if popcount b > 5 ∨ popcount b < 3 then balance_byte b else b)

/-- Final balancing of the JIT mixer (source lines 278-285): flip the lowest
bit of bytes whose popcount is outside [3,5]. -/
def jitSimpleBalance (res : List Nat) : List Nat :=
  res.map (fun b => if popcount b > 5 ∨ popcount b < 3 then b ^^^ 1 else b)

/-- Enhanced block mixing (source lines 660-811), the pure-Python path
(`global_mix` on every diffusion call). -/
def enhanced_block_mixing (block : List Nat) (position : Nat) : List Nat :=
  let output_size := max 16 block.length
  let k1 := PRIMES.getD ((position * 3) % PRIMES.length) 0
  let k2 := PRIMES.getD ((position * 5 + 1) % PRIMES.length) 0
  let k3 := MULTIPLIERS.getD ((position * 7) % MULTIPLIERS.length) 0
  let pad_base := (k1 * k2 + position) &&& 0xFF
  let buffer := padBufferAux output_size pad_base k3 output_size block
  let chunks := buildChunks k1 k2 k3 buffer.length 0 buffer
  let result := (processChunks position k1 k3 chunks none 0).take output_size
  let result := global_mix (global_mix (global_mix result))
  let result := backPass (farPass (fwdPass result))
  let result := global_mix (sboxPass result)
  let result := mirrorPass (decorPass result)
  let result := permStep result
  let result := if maxRunOf result > 14 then break_long_runs result else result
  finalBalancePass result

/-- JIT-compiled block mixing `_enhanced_block_mixing_jit` (source lines
145-287): same padding, chunk pipeline and XOR passes as the pure mixer, but
after the palindrome fold it performs only a dead run scan (the computed
maximum is never used) and the one-bit `jitSimpleBalance`; the permutation
step, the run-breaking repair and `balance_byte` of the pure mixer are
absent. -/
def enhancedBlockMixingJit (block : List Nat) (position : Nat) : List Nat :=
  let output_size := max 16 block.length
  let k1 := PRIMES.getD ((position * 3) % PRIMES.length) 0
  let k2 := PRIMES.getD ((position * 5 + 1) % PRIMES.length) 0
  let k3 := MULTIPLIERS.getD ((position * 7) % MULTIPLIERS.length) 0
  let pad_base := (k1 * k2 + position) &&& 0xFF
  let buffer := padBufferAux output_size pad_base k3 output_size block
  let chunks := buildChunks k1 k2 k3 buffer.length 0 buffer
  let result := (processChunksJit position k1 k3 chunks (List.replicate 8 0) 0).take output_size
  let result := global_mix (global_mix (global_mix result))
  let result := backPass (farPass (fwdPass result))
  let result := global_mix (sboxPass result)
  let result := mirrorPass (decorPass result)
  jitSimpleBalance result

/-- Feistel-like byte pair mixing (source lines 856-873). -/
def mix_bytes (a b salt : Nat) : Nat × Nat :=
  let x := (a * 0xB7 + salt) &&& 0xFF
  let y := (b * 0x89 + salt) &&& 0xFF
  let t := x
  let x := y ^^^ ((x * 0xC3 + salt) &&& 0xFF)
  let y := t ^^^ ((y * 0xAB + salt) &&& 0xFF)
  let x := ((x <<< 3) ||| (x >>> 5)) &&& 0xFF
  let y := ((y >>> 3) ||| (y <<< 5)) &&& 0xFF
  (x ^^^ (salt &&& 0x33), y ^^^ ((salt >>> 4) &&& 0x33))

/-- Finalization (source lines 638-658), parametrised by the external
`hashlib.blake2b(digest_size=32)` primitive, modelled as a function from the
updated byte stream (`state` followed by the fixed salt byte 1) to its
digest bytes.  The defensive branches repeat-and-truncate or truncate to
exactly 32 bytes. -/
def finalize_state (blake2b : List Nat → List Nat) (state : List Nat) : List Nat :=
  let result := blake2b (state ++ [0x01])
  if result.length < 32 then
    (List.flatten (List.replicate (32 / result.length + 1) result)).take 32
  else if result.length > 32 then result.take 32
  else result

/-- Lowercase hexadecimal digits: 0-9 then a-f. -/
def hexChars : List Char :=
  (List.range 16).map (fun n => if n < 10 then Char.ofNat (48 + n) else Char.ofNat (87 + n))

/-- The lowercase hex digit of a value below 16. -/
def hexChar (n : Nat) : Char := hexChars.getD n '0'

/-- Python `bytes.hex()`: two lowercase hex digits per byte. -/
def bytesToHex : List Nat → List Char
  | [] => []
  | b :: rest => hexChar ((b >>> 4) &&& 0xF) :: hexChar (b &&& 0xF) :: bytesToHex rest

/-- Value of a hex digit character (position in the digit list). -/
def hexDigitVal (c : Char) : Nat := hexChars.indexOf c

/-- Python `int(s, 16)` on a hex string. -/
def hexVal (l : List Char) : Nat := l.foldl (fun a c => a * 16 + hexDigitVal c) 0

/-- Python `bytearray.fromhex`: decode consecutive hex digit pairs. -/
def bytesOfHex : List Char → List Nat
  | c1 :: c2 :: rest => (hexDigitVal c1 * 16 + hexDigitVal c2) :: bytesOfHex rest
  | _ => []

/-- Block decomposition of the in-memory orchestrator (source line 900):
`data[i:i+64]` for `i in range(0, len(data), 64)`; the Python range has
`(len + 63) / 64` elements spaced 64 apart. -/
def memBlocks (data : List Nat) : List (List Nat) :=
  (List.range' 0 ((data.length + 63) / 64) 64).map (fun i => (data.drop i).take 64)

/-- Block decomposition of the streaming file orchestrator (source lines
1342-1353): repeatedly `read(64)` until an empty read.  Reading from a file
whose content is `rest` returns its first 64 bytes and leaves the rest; the
fuel (the total content length) bounds the number of reads. -/
def fileBlocksAux : Nat → List Nat → List (List Nat)
  | 0, _ => []
  | fuel + 1, rest =>
    if rest = [] then []
    else rest.take 64 :: fileBlocksAux fuel (rest.drop 64)

/-- All 64-byte blocks read by the streaming variant from content `x`. -/
def fileBlocks (x : List Nat) : List (List Nat) := fileBlocksAux x.length x

/-- The digest mixing loop over the first eight sequence values (source
lines 938-946): pair `(2i, 2i+1)` of the 20-byte buffer is rewritten by
`mix_bytes` with salt `sequence[i] & 0xFF`, guarded by `2i + 1 < len`. -/
def mixLoop (vals : List Nat) (h : List Nat) : List Nat :=
  vals.enum.foldl (fun h p =>
    let idx := 2 * p.1
    if idx + 1 < h.length then
      let xy := mix_bytes (h.getD idx 0) (h.getD (idx + 1) 0) (p.2 &&& 0xFF)
      (h.set idx xy.1).set (idx + 1) xy.2
    else h) h

/-- Shared tail of both orchestrators (source lines 900-960 and 1342-1390,
which are line-for-line the same computation): mix each block at its
position with the strategy selected by `useJit`, feed the concatenation to
the external SHA-1 (modelled by its hexdigest function `sha1Hex`), derive
the seed from the first 8 hex digits, generate the Collatz sequence with the
selected strategy, mix the 20 digest bytes with the first 8 sequence values,
finalize, and return the hex string.  Progress printing and timing
(`show_progress`) do not affect the result and are not modelled. -/
def digestPipeline (sha1Hex : List Nat → List Char) (blake2b : List Nat → List Nat)
    (useJit : Bool) (blocks : List (List Nat)) : List Char :=
  let mixed := blocks.enum.map (fun p =>
    if useJit then enhancedBlockMixingJit p.2 p.1 else enhanced_block_mixing p.2 p.1)
  let base_digest := sha1Hex mixed.flatten
  let seed := hexVal (base_digest.take 8)
  let sequence := if useJit then strengthenedCollatzSequenceJit seed
                  else strengthened_collatz_sequence seed
  let mixed_hash := mixLoop (sequence.take 8) (bytesOfHex base_digest)
  bytesToHex (finalize_state blake2b mixed_hash)

/-- In-memory digest `enhanced_sha1_signature` (source lines 875-960),
parametrised by the two external hash primitives and by the acceleration
strategy flag (`_NUMBA_ENABLED and _USE_JIT` in the source). -/
def enhanced_sha1_signature (sha1Hex : List Nat → List Char)
    (blake2b : List Nat → List Nat) (useJit : Bool) (data : List Nat) : List Char :=
  digestPipeline sha1Hex blake2b useJit (memBlocks data)

/-- Streaming file digest `enhanced_sha1_signature_file` (source lines
1319-1390), reading 64-byte blocks from the stored content `x`. -/
def enhanced_sha1_signature_file (sha1Hex : List Nat → List Char)
    (blake2b : List Nat → List Nat) (useJit : Bool) (x : List Nat) : List Char :=
  digestPipeline sha1Hex blake2b useJit (fileBlocks x)

/-- Byte `i/8` of a word: the 8 bits starting at bit offset `i`. -/
def byteAt (v i : Nat) : Nat := (v >>> i) &&& 0xFF

/-- The byte-level function applied by `loopBalStep` to the byte it
rewrites: flip the lowest bit when the popcount is outside [3,5]. -/
def loopBalByte (b : Nat) : Nat :=
  if popcount b < 3 ∨ popcount b > 5 then b ^^^ 1 else b

/-- Modelled from the spec wording for claim C7: a variant of `mix_state`
whose final per-byte correction is the same single-bit-flip correction as
the per-step correction of the main loop (`loopBalance`), instead of the
OR-0x55/AND-0xAA correction the source applies. -/
def mixStateClaimed (val : Nat) : Nat := loopBalance (preMix val)

/-- A 64-byte all-zero block, used as a concrete test input. -/
def zeros64 : List Nat := List.replicate 64 0

/-! ### Theorems -/

theorem and255_eq_mod (x : Nat) : x &&& 255 = x % 256 := by
  have h := Nat.and_pow_two_sub_one_eq_mod x 8
  norm_num at h
  exact h

theorem byteAt_lt (v i : Nat) : byteAt v i < 256 := by
  rw [byteAt, and255_eq_mod]
  exact Nat.mod_lt _ (by norm_num)

theorem byteAt_fold (w j : Nat) : (w >>> j) &&& 0xFF = byteAt w j := rfl

theorem testBit_byteAt (v i t : Nat) :
    (byteAt v i).testBit t = (v.testBit (i + t) && decide (t < 8)) := by
  rw [byteAt, Nat.testBit_and, Nat.testBit_shiftRight,
    show (0xFF : Nat) = 2 ^ 8 - 1 by norm_num, Nat.testBit_two_pow_sub_one]

theorem testBit_byte_high {c : Nat} (hc : c < 256) {n : Nat} (hn : 8 ≤ n) :
    c.testBit n = false := by
  apply Nat.testBit_lt_two_pow
  calc c < 256 := hc
    _ = 2 ^ 8 := by norm_num
    _ ≤ 2 ^ n := Nat.pow_le_pow_right (by norm_num) hn

theorem byteAt_or (a b i : Nat) : byteAt (a ||| b) i = byteAt a i ||| byteAt b i := by
  apply Nat.eq_of_testBit_eq
  intro t
  rw [Nat.testBit_or, testBit_byteAt, testBit_byteAt, testBit_byteAt, Nat.testBit_or]
  by_cases ht : t < 8 <;> simp [ht]

theorem byteAt_and (a b i : Nat) : byteAt (a &&& b) i = byteAt a i &&& byteAt b i := by
  apply Nat.eq_of_testBit_eq
  intro t
  rw [Nat.testBit_and, testBit_byteAt, testBit_byteAt, testBit_byteAt, Nat.testBit_and]
  by_cases ht : t < 8 <;> simp [ht]

theorem byteAt_xor (a b i : Nat) : byteAt (a ^^^ b) i = byteAt a i ^^^ byteAt b i := by
  apply Nat.eq_of_testBit_eq
  intro t
  rw [Nat.testBit_xor, testBit_byteAt, testBit_byteAt, testBit_byteAt, Nat.testBit_xor]
  by_cases ht : t < 8 <;> simp [ht]

theorem byteAt_shift_self {c : Nat} (hc : c < 256) (i : Nat) : byteAt (c <<< i) i = c := by
  apply Nat.eq_of_testBit_eq
  intro t
  rw [testBit_byteAt, Nat.testBit_shiftLeft]
  by_cases ht : t < 8
  · simp [ht, Nat.le_add_right, Nat.add_sub_cancel_left]
  · rw [testBit_byte_high hc (show 8 ≤ t by omega)]
    simp [ht]

theorem byteAt_shift_disjoint {c : Nat} (hc : c < 256) {i j : Nat}
    (h : i + 8 ≤ j ∨ j + 8 ≤ i) : byteAt (c <<< i) j = 0 := by
  apply Nat.eq_of_testBit_eq
  intro t
  rw [testBit_byteAt, Nat.testBit_shiftLeft]
  simp only [Nat.zero_testBit]
  by_cases ht : t < 8
  · rcases h with h | h
    · rw [testBit_byte_high hc (show 8 ≤ j + t - i by omega)]
      simp
    · simp [show ¬ (j + t ≥ i) by omega]
  · simp [ht]

theorem byte_clear55 : ∀ b : Nat, b < 256 → b ^^^ (b &&& 0x55) = b &&& 0xAA := by decide

theorem byteAt_msBalStep_ne (v : Nat) {i j : Nat} (h : i + 8 ≤ j ∨ j + 8 ≤ i) :
    byteAt (msBalStep v i) j = byteAt v j := by
  rw [msBalStep]
  have h55 : byteAt (0x55 <<< i) j = 0 := byteAt_shift_disjoint (by norm_num) h
  split
  · rw [byteAt_or, h55, Nat.or_zero]
  · split
    · rw [byteAt_xor, byteAt_and, h55, Nat.and_zero, Nat.xor_zero]
    · rfl

theorem byteAt_msBalStep_self (v i : Nat) :
    byteAt (msBalStep v i) i = mixBalByte (byteAt v i) := by
  simp only [msBalStep, mixBalByte, byteAt_fold]
  have h55 : byteAt (0x55 <<< i) i = 0x55 := byteAt_shift_self (by norm_num) i
  split
  · rw [byteAt_or, h55]
  · split
    · rw [byteAt_xor, byteAt_and, h55, byte_clear55 (byteAt v i) (byteAt_lt v i)]
    · rfl

theorem byteAt_loopBalStep_ne (v : Nat) {i j : Nat} (h : i + 8 ≤ j ∨ j + 8 ≤ i) :
    byteAt (loopBalStep v i) j = byteAt v j := by
  rw [loopBalStep]
  split
  · rw [byteAt_xor, byteAt_shift_disjoint (by norm_num) h, Nat.xor_zero]
  · rfl

theorem byteAt_loopBalStep_self (v i : Nat) :
    byteAt (loopBalStep v i) i = loopBalByte (byteAt v i) := by
  simp only [loopBalStep, loopBalByte, byteAt_fold]
  split
  · rw [byteAt_xor, byteAt_shift_self (by norm_num) i]
  · rfl

theorem msBalance_eq_steps (v : Nat) :
    msBalance v = msBalStep (msBalStep (msBalStep (msBalStep v 0) 8) 16) 24 := rfl

theorem loopBalance_eq_steps (v : Nat) :
    loopBalance v = loopBalStep (loopBalStep (loopBalStep (loopBalStep v 0) 8) 16) 24 := rfl

theorem byteAt_msBalance (v : Nat) {i : Nat} (h : i = 0 ∨ i = 8 ∨ i = 16 ∨ i = 24) :
    byteAt (msBalance v) i = mixBalByte (byteAt v i) := by
  rw [msBalance_eq_steps]
  rcases h with h | h | h | h <;> subst h
  · rw [byteAt_msBalStep_ne _ (by omega), byteAt_msBalStep_ne _ (by omega),
      byteAt_msBalStep_ne _ (by omega), byteAt_msBalStep_self]
  · rw [byteAt_msBalStep_ne _ (by omega), byteAt_msBalStep_ne _ (by omega),
      byteAt_msBalStep_self, byteAt_msBalStep_ne _ (by omega)]
  · rw [byteAt_msBalStep_ne _ (by omega), byteAt_msBalStep_self,
      byteAt_msBalStep_ne _ (by omega), byteAt_msBalStep_ne _ (by omega)]
  · rw [byteAt_msBalStep_self, byteAt_msBalStep_ne _ (by omega),
      byteAt_msBalStep_ne _ (by omega), byteAt_msBalStep_ne _ (by omega)]

theorem byteAt_loopBalance (v : Nat) {i : Nat} (h : i = 0 ∨ i = 8 ∨ i = 16 ∨ i = 24) :
    byteAt (loopBalance v) i = loopBalByte (byteAt v i) := by
  rw [loopBalance_eq_steps]
  rcases h with h | h | h | h <;> subst h
  · rw [byteAt_loopBalStep_ne _ (by omega), byteAt_loopBalStep_ne _ (by omega),
      byteAt_loopBalStep_ne _ (by omega), byteAt_loopBalStep_self]
  · rw [byteAt_loopBalStep_ne _ (by omega), byteAt_loopBalStep_ne _ (by omega),
      byteAt_loopBalStep_self, byteAt_loopBalStep_ne _ (by omega)]
  · rw [byteAt_loopBalStep_ne _ (by omega), byteAt_loopBalStep_self,
      byteAt_loopBalStep_ne _ (by omega), byteAt_loopBalStep_ne _ (by omega)]
  · rw [byteAt_loopBalStep_self, byteAt_loopBalStep_ne _ (by omega),
      byteAt_loopBalStep_ne _ (by omega), byteAt_loopBalStep_ne _ (by omega)]

theorem mixBalByte_ne01 : ∀ b : Nat, b < 256 → mixBalByte b ≠ 0 ∧ mixBalByte b ≠ 1 := by
  decide

theorem loopBalByte_eq_one : ∀ b : Nat, b < 256 → loopBalByte b = 1 → b = 0 := by decide

theorem mix_state_byte0 (v : Nat) :
    byteAt (mix_state v) 0 = mixBalByte (byteAt (preMix v) 0) :=
  byteAt_msBalance (preMix v) (Or.inl rfl)

theorem mix_state_ne_one (v : Nat) : mix_state v ≠ 1 := by
  intro h
  have h0 := mix_state_byte0 v
  rw [h] at h0
  have h1 : byteAt 1 0 = 1 := by decide
  rw [h1] at h0
  exact (mixBalByte_ne01 _ (byteAt_lt _ _)).2 h0.symm

theorem loopBalance_mix_ne_one (w : Nat) : loopBalance (mix_state w) ≠ 1 := by
  intro h
  have h0 := byteAt_loopBalance (mix_state w) (Or.inl rfl)
  rw [h] at h0
  have h1 : byteAt 1 0 = 1 := by decide
  rw [h1] at h0
  have hz := loopBalByte_eq_one _ (byteAt_lt (mix_state w) 0) h0.symm
  have hb := mix_state_byte0 w
  rw [hz] at hb
  exact (mixBalByte_ne01 _ (byteAt_lt _ _)).1 hb.symm

/-- C9: `balance_byte` returns bytes whose popcount is already in [3,5]
unchanged; otherwise its at most 8 value-dependent flip attempts either land
the popcount in [3,5] (stopping early) or the original byte is returned
unmodified. -/
theorem claim_C9_balance_byte : ∀ b : Nat, b < 256 →
    ((3 ≤ popcount b ∧ popcount b ≤ 5) → balance_byte b = b) ∧
    ((popcount b < 3 ∨ 5 < popcount b) →
      ((3 ≤ popcount (balance_byte b) ∧ popcount (balance_byte b) ≤ 5) ∨
        balance_byte b = b)) := by
  decide

/-- C9 witness: byte 7 has popcount 3 and is returned unchanged. -/
theorem claim_C9_witness : (7 : Nat) < 256 ∧ balance_byte 7 = 7 :=
  ⟨by decide, (claim_C9_balance_byte 7 (by decide)).1 (by decide)⟩

/-- C7 counterexample: at input 0 the real `mix_state` (which ends with the
OR-0x55/AND-0xAA per-byte correction) differs from the variant that ends
with the per-step single-bit-flip correction of the main loop, so the final
correction of `mix_state` is not the same correction as the loop step. -/
theorem claim_C7_counterexample : mix_state 0 ≠ mixStateClaimed 0 := by decide

/-- C7 (amended): `mix_state` ends by applying, to each of its four bytes in
isolation, the correction that ORs `0x55` into a byte with popcount below 3
and ANDs a byte with popcount above 5 with `0xAA` (changing up to four
bits), not the single-bit flip of the per-step correction of the main
loop. -/
theorem claim_C7_mix_state_balance (v k : Nat) (h : k < 4) :
    byteAt (mix_state v) (8 * k) = mixBalByte (byteAt (preMix v) (8 * k)) := by
  interval_cases k
  · exact byteAt_msBalance (preMix v) (by omega)
  · exact byteAt_msBalance (preMix v) (by omega)
  · exact byteAt_msBalance (preMix v) (by omega)
  · exact byteAt_msBalance (preMix v) (by omega)

/-- C7 witness: the amended statement at `v = 0`, `k = 0`. -/
theorem claim_C7_witness :
    (0 : Nat) < 4 ∧ byteAt (mix_state 0) (8 * 0) = mixBalByte (byteAt (preMix 0) (8 * 0)) :=
  ⟨by decide, claim_C7_mix_state_balance 0 0 (by decide)⟩

theorem collatzTransition_mix (s : Nat) : ∃ w, collatzTransition s = mix_state w := by
  rw [collatzTransition]
  split
  · exact ⟨_, rfl⟩
  · exact ⟨_, rfl⟩

theorem collatzGuard_mix {s2 : Nat} (p : List Nat) (st l : Nat)
    (h : ∃ w, s2 = mix_state w) : ∃ w, collatzGuard s2 p st l = mix_state w := by
  rw [collatzGuard]
  split
  · exact ⟨_, rfl⟩
  · exact h

theorem collatzBody2_ne_one (a : Nat) (b c : List Nat) (d : Nat) :
    collatzBody2 a b c d ≠ 1 := by
  rw [collatzBody2]
  exact mix_state_ne_one _

theorem collatzLoop1_spec : ∀ (fuel state : Nat) (seq prevs : List Nat) (len : Nat),
    len + fuel = 100 → state ≠ 1 →
    (collatzLoop1 fuel state seq prevs len).1.length = seq.length + fuel ∧
    (collatzLoop1 fuel state seq prevs len).2.1 ≠ 1 ∧
    (collatzLoop1 fuel state seq prevs len).2.2.2 = 100 := by
  intro fuel
  induction fuel with
  | zero =>
    intro state seq prevs len h hs
    refine ⟨by simp [collatzLoop1], by simpa [collatzLoop1] using hs, by simp [collatzLoop1]; omega⟩
  | succ n ih =>
    intro state seq prevs len h hs
    have hlen : len < 100 := by omega
    have heq : collatzLoop1 (n + 1) state seq prevs len =
        collatzLoop1 n
          (loopBalance (collatzGuard (collatzTransition state) (prevs ++ [state]) state (len + 1)))
          (seq ++ [state]) (prevs ++ [state]) (len + 1) := by
      rw [collatzLoop1, if_pos ⟨hs, hlen⟩]
    obtain ⟨w, hw⟩ := collatzGuard_mix (prevs ++ [state]) state (len + 1)
      (collatzTransition_mix state)
    have hne : loopBalance (collatzGuard (collatzTransition state) (prevs ++ [state]) state (len + 1)) ≠ 1 := by
      rw [hw]; exact loopBalance_mix_ne_one w
    obtain ⟨ih1, ih2, ih3⟩ := ih _ (seq ++ [state]) (prevs ++ [state]) (len + 1) (by omega) hne
    rw [heq]
    refine ⟨?_, ih2, ih3⟩
    rw [ih1]
    simp
    omega

theorem collatzLoop2_spec : ∀ (fuel state : Nat) (seq prevs : List Nat) (len : Nat),
    len + fuel = 1000 → state ≠ 1 →
    (collatzLoop2 fuel state seq prevs len).1.length = seq.length + fuel := by
  intro fuel
  induction fuel with
  | zero => intro state seq prevs len h hs; simp [collatzLoop2]
  | succ n ih =>
    intro state seq prevs len h hs
    have hlen : len < 1000 := by omega
    have heq : collatzLoop2 (n + 1) state seq prevs len =
        collatzLoop2 n
          (collatzBody2 (wordBalance state) (seq ++ [wordBalance state])
            (prevs ++ [wordBalance state]) (len + 1))
          (seq ++ [wordBalance state]) (prevs ++ [wordBalance state]) (len + 1) := by
      rw [collatzLoop2, if_pos ⟨hs, hlen⟩]
    rw [heq, ih _ (seq ++ [wordBalance state]) (prevs ++ [wordBalance state]) (len + 1)
      (by omega) (collatzBody2_ne_one _ _ _ _)]
    simp
    omega

theorem andM32_eq_mod (x : Nat) : x &&& M32 = x % 4294967296 := by
  have h := Nat.and_pow_two_sub_one_eq_mod x 32
  norm_num at h
  rw [M32]
  exact h

theorem collatz_length_of_ne (seed : Nat) (h : seed &&& M32 ≠ 1) :
    (strengthened_collatz_sequence seed).length = 1100 := by
  rw [strengthened_collatz_sequence]
  obtain ⟨h1len, h1ne, _⟩ := collatzLoop1_spec 100 (seed &&& M32) [] [] 0 (by omega) h
  rw [collatzLoop2_spec 1000 _ _ _ 0 (by omega) h1ne, h1len]
  rfl

theorem collatz_length_of_eq (seed : Nat) (h : seed &&& M32 = 1) :
    (strengthened_collatz_sequence seed).length = 0 := by
  rw [strengthened_collatz_sequence, h]
  rfl

/-- C1 (amended): the second Collatz loop is reachable, not dead: the first
loop can only stop at its 100-iteration cap (the per-iteration balanced
state is never 1), after which the second loop always runs its full 1000
iterations, so for every 32-bit seed other than 1 the returned sequence has
exactly 1100 entries, and for seed 1 it is empty.  The spec bound of 100
entries is exceeded. -/
theorem claim_C1_collatz_length (seed : Nat) :
    (seed % 4294967296 = 1 → (strengthened_collatz_sequence seed).length = 0) ∧
    (seed % 4294967296 ≠ 1 → (strengthened_collatz_sequence seed).length = 1100) := by
  constructor
  · intro h
    exact collatz_length_of_eq seed (by rw [andM32_eq_mod, h])
  · intro h
    exact collatz_length_of_ne seed (by rw [andM32_eq_mod]; exact h)

/-- C1 counterexample: for seed 0 the sequence has 1100 entries, violating
the claimed bound of at most 100 entries. -/
theorem claim_C1_counterexample :
    ¬ (strengthened_collatz_sequence 0).length ≤ 100 := by
  have h := collatz_length_of_ne 0 (by decide)
  omega

/-- C1 witness: the amended statement at seed 0. -/
theorem claim_C1_witness :
    (0 : Nat) % 4294967296 ≠ 1 ∧ (strengthened_collatz_sequence 0).length = 1100 :=
  ⟨by decide, (claim_C1_collatz_length 0).2 (by decide)⟩

theorem collatzLoop1_length_le : ∀ (fuel state : Nat) (seq prevs : List Nat) (len : Nat),
    (collatzLoop1 fuel state seq prevs len).1.length ≤ seq.length + fuel := by
  intro fuel
  induction fuel with
  | zero => intro state seq prevs len; simp [collatzLoop1]
  | succ n ih =>
    intro state seq prevs len
    rw [collatzLoop1]
    split
    · calc (collatzLoop1 n _ (seq ++ [state]) (prevs ++ [state]) (len + 1)).1.length
          ≤ (seq ++ [state]).length + n := ih _ _ _ _
        _ ≤ seq.length + (n + 1) := by simp; omega
    · simp

theorem collatzLoop2_length_le : ∀ (fuel state : Nat) (seq prevs : List Nat) (len : Nat),
    (collatzLoop2 fuel state seq prevs len).1.length ≤ seq.length + fuel := by
  intro fuel
  induction fuel with
  | zero => intro state seq prevs len; simp [collatzLoop2]
  | succ n ih =>
    intro state seq prevs len
    rw [collatzLoop2]
    split
    · calc (collatzLoop2 n _ (seq ++ [wordBalance state]) (prevs ++ [wordBalance state])
            (len + 1)).1.length
          ≤ (seq ++ [wordBalance state]).length + n := ih _ _ _ _
        _ ≤ seq.length + (n + 1) := by simp; omega
    · simp

/-- C10: the digest computation is a total function: the block loop
processes exactly the ceiling of `len/64` blocks, the two Collatz loops are
bounded by their caps (at most 100 + 1000 recorded values), and the whole
signature computation always returns a value.  Every loop of the embedding
is structurally bounded and all arithmetic is masked, so no error branch is
involved for byte input. -/
theorem claim_C10_termination :
    ∀ (sha1Hex : List Nat → List Char) (blake2b : List Nat → List Nat)
      (useJit : Bool) (data : List Nat) (seed : Nat),
    (memBlocks data).length = (data.length + 63) / 64 ∧
    (strengthened_collatz_sequence seed).length ≤ 1100 ∧
    ∃ out, enhanced_sha1_signature sha1Hex blake2b useJit data = out := by
  intro sha1Hex blake2b useJit data seed
  refine ⟨?_, ?_, ⟨_, rfl⟩⟩
  · simp [memBlocks]
  · rw [strengthened_collatz_sequence]
    have h1 := collatzLoop1_length_le 100 (seed &&& M32) [] [] 0
    have h2 := collatzLoop2_length_le 1000 (collatzLoop1 100 (seed &&& M32) [] [] 0).2.1
      (collatzLoop1 100 (seed &&& M32) [] [] 0).1
      (collatzLoop1 100 (seed &&& M32) [] [] 0).2.2.1 0
    simp at h1
    omega

/-- C8 counterexample: for seed 649267 the first bounded loop driven by the
source guard (replacement when the new state matches any previously recorded
state) produces a different sequence than the loop driven by the claimed
guard (replacement only when the new state equals `prev_state`): at
iteration 8 the new state equals the state recorded at iteration 5, which is
not `prev_state`, so the source replaces it where the claim says it is left
unchanged. -/
theorem claim_C8_counterexample :
    (collatzLoop1 100 649267 [] [] 0).1 ≠ (collatzLoop1Claimed 100 649267 [] [] 0).1 := by
  decide

/-- C8 (amended): the cycle guard replaces the freshly computed state with
`mix_state (prev_state XOR step_count)` exactly when it equals any
previously recorded state — the set that always contains `prev_state`, so
equality with `prev_state` is a sufficient but not necessary trigger — and
leaves it unchanged only when it matches no recorded state. -/
theorem claim_C8_cycle_guard (state : Nat) (prevs : List Nat) (len s2 : Nat) :
    ((s2 = state ∨ s2 ∈ prevs) →
      collatzGuard s2 (prevs ++ [state]) state len = mix_state (state ^^^ len)) ∧
    ((s2 ≠ state ∧ s2 ∉ prevs) →
      collatzGuard s2 (prevs ++ [state]) state len = s2) := by
  constructor
  · intro h
    rw [collatzGuard, if_pos]
    simp only [List.mem_append, List.mem_singleton]
    tauto
  · intro h
    rw [collatzGuard, if_neg]
    simp only [List.mem_append, List.mem_singleton]
    tauto

/-- C8 witness: the amended statement with a new state equal to the recorded
`prev_state`. -/
theorem claim_C8_witness :
    collatzGuard 2 ([] ++ [2]) 2 7 = mix_state (2 ^^^ 7) :=
  (claim_C8_cycle_guard 2 [] 7 2).1 (Or.inl rfl)

theorem memBlocks_nil : memBlocks [] = [] := by
  simp [memBlocks]

theorem range'_shift_map {α : Type} (g : Nat → α) :
    ∀ (m s k step : Nat),
      (List.range' (s + k) m step).map g = (List.range' s m step).map (fun i => g (i + k)) := by
  intro m
  induction m with
  | zero => intro s k step; simp
  | succ n ih =>
    intro s k step
    rw [List.range'_succ, List.range'_succ, List.map_cons, List.map_cons,
      show s + k + step = s + step + k by omega, ih (s + step) k step]

theorem memBlocks_cons (x : List Nat) (h : x ≠ []) :
    memBlocks x = x.take 64 :: memBlocks (x.drop 64) := by
  have hlen : 0 < x.length := List.length_pos.mpr h
  have hcount : (x.length + 63) / 64 = ((x.drop 64).length + 63) / 64 + 1 := by
    simp only [List.length_drop]
    omega
  rw [memBlocks, hcount, List.range'_succ, List.map_cons, List.drop_zero]
  congr 1
  rw [show (0 + 64 : Nat) = 0 + 64 from rfl, range'_shift_map]
  rw [memBlocks]
  apply List.map_congr_left
  intro i _
  rw [List.drop_drop, Nat.add_comm i 64]

theorem fileBlocksAux_eq : ∀ (fuel : Nat) (x : List Nat), x.length ≤ fuel →
    fileBlocksAux fuel x = memBlocks x := by
  intro fuel
  induction fuel with
  | zero =>
    intro x h
    have hx : x = [] := by
      cases x with
      | nil => rfl
      | cons a l => simp at h
    rw [hx, memBlocks_nil]
    rfl
  | succ n ih =>
    intro x h
    by_cases hx : x = []
    · rw [hx, memBlocks_nil]
      rfl
    · have h1 : 0 < x.length := List.length_pos.mpr hx
      rw [fileBlocksAux, if_neg hx, ih (x.drop 64) (by simp [List.length_drop]; omega),
        ← memBlocks_cons x hx]

/-- C5: the streaming file variant returns exactly the same hex string as
the in-memory variant on the same byte content, for every choice of the
external hash primitives and of the acceleration strategy: both decompose
the input into the same 64-byte blocks at the same positions and share the
identical post-processing. -/
theorem claim_C5_streaming_equivalence (sha1Hex : List Nat → List Char)
    (blake2b : List Nat → List Nat) (useJit : Bool) (x : List Nat) :
    enhanced_sha1_signature_file sha1Hex blake2b useJit x =
      enhanced_sha1_signature sha1Hex blake2b useJit x := by
  rw [enhanced_sha1_signature_file, enhanced_sha1_signature, fileBlocks,
    fileBlocksAux_eq x.length x le_rfl]

theorem bytesToHex_length : ∀ bs : List Nat, (bytesToHex bs).length = 2 * bs.length := by
  intro bs
  induction bs with
  | nil => rfl
  | cons b rest ih =>
    rw [bytesToHex, List.length_cons, List.length_cons, ih, List.length_cons]
    omega

theorem hexChar_mem (n : Nat) : hexChar n ∈ hexChars := by
  rw [hexChar, List.getD_eq_getElem?_getD]
  cases h : hexChars[n]? with
  | none => simp; decide
  | some c => simpa using List.getElem?_mem h

theorem bytesToHex_mem : ∀ (bs : List Nat) (c : Char), c ∈ bytesToHex bs → c ∈ hexChars := by
  intro bs
  induction bs with
  | nil => intro c hc; simp [bytesToHex] at hc
  | cons b rest ih =>
    intro c hc
    rw [bytesToHex] at hc
    simp only [List.mem_cons] at hc
    rcases hc with hc | hc | hc
    · rw [hc]; exact hexChar_mem _
    · rw [hc]; exact hexChar_mem _
    · exact ih c hc

theorem flatten_replicate_length {α : Type} (n : Nat) (l : List α) :
    (List.flatten (List.replicate n l)).length = n * l.length := by
  induction n with
  | zero => simp
  | succ m ih =>
    rw [List.replicate_succ, List.flatten_cons, List.length_append, ih]
    ring

/-- C6, part for `finalize_state`: whenever the external blake2b primitive
returns at least one byte (its `digest_size=32` contract guarantees 32), the
finalization returns exactly 32 bytes through its defensive
repeat-and-truncate branches. -/
theorem finalize_length (blake2b : List Nat → List Nat) (st : List Nat)
    (h : 0 < (blake2b (st ++ [1])).length) :
    (finalize_state blake2b st).length = 32 := by
  rw [finalize_state]
  by_cases h1 : (blake2b (st ++ [0x01])).length < 32
  · rw [if_pos h1, List.length_take, flatten_replicate_length]
    have hd := Nat.div_add_mod 32 (blake2b (st ++ [0x01])).length
    have hm := Nat.mod_lt 32 h
    set L := (blake2b (st ++ [0x01])).length with hL
    have : 32 ≤ (32 / L + 1) * L := by
      rw [Nat.add_mul, Nat.one_mul, Nat.mul_comm]
      omega
    omega
  · rw [if_neg h1]
    by_cases h2 : (blake2b (st ++ [0x01])).length > 32
    · rw [if_pos h2, List.length_take]
      omega
    · rw [if_neg h2]
      omega

theorem mixLoop_length (vals h : List Nat) : (mixLoop vals h).length = h.length := by
  rw [mixLoop]
  generalize vals.enum = ps
  induction ps generalizing h with
  | nil => rfl
  | cons p rest ih =>
    rw [List.foldl_cons, ih]
    simp only []
    split
    · simp
    · rfl

/-- C6: for every byte input (the empty input included), for both
acceleration strategies and for any external primitives satisfying their
output-length contracts, the digest is a string of exactly 64 characters,
each a lowercase hexadecimal digit, and `finalize_state` always returns
exactly 32 bytes. -/
theorem claim_C6_digest_shape :
    (∀ (blake2b : List Nat → List Nat) (st : List Nat),
        0 < (blake2b (st ++ [1])).length → (finalize_state blake2b st).length = 32) ∧
    (∀ (sha1Hex : List Nat → List Char) (blake2b : List Nat → List Nat) (useJit : Bool)
        (data : List Nat), (∀ y, 0 < (blake2b y).length) →
        (enhanced_sha1_signature sha1Hex blake2b useJit data).length = 64 ∧
        ∀ c ∈ enhanced_sha1_signature sha1Hex blake2b useJit data, c ∈ hexChars) := by
  refine ⟨finalize_length, ?_⟩
  intro sha1Hex blake2b useJit data hb
  constructor
  · rw [enhanced_sha1_signature, digestPipeline, bytesToHex_length,
      finalize_length _ _ (hb _)]
  · intro c hc
    rw [enhanced_sha1_signature, digestPipeline] at hc
    exact bytesToHex_mem _ c hc

/-- C6 witness: concrete primitives meeting the contracts give a 32-byte
finalization and a 64-character digest on the empty input. -/
theorem claim_C6_witness :
    (finalize_state (fun _ => List.replicate 32 0) []).length = 32 ∧
    (enhanced_sha1_signature (fun _ => List.replicate 40 '0')
      (fun _ => List.replicate 32 0) false []).length = 64 :=
  ⟨claim_C6_digest_shape.1 _ _ (by simp),
   (claim_C6_digest_shape.2 _ _ false [] (fun y => by simp)).1⟩

theorem and7_eq_mod (x : Nat) : x &&& 7 = x % 8 := by
  have h := Nat.and_pow_two_sub_one_eq_mod x 3
  norm_num at h
  exact h

theorem mixWithPrev_mod8 (p : Nat) (prev c : List Nat) :
    mixWithPrev (p % 8) prev c = mixWithPrev p prev c := by
  rw [mixWithPrev, mixWithPrev]
  apply List.map_congr_left
  intro q _
  change q.2 ^^^ rotl (prev.getD q.1 0) ((p % 8 + q.1) &&& 7) =
    q.2 ^^^ rotl (prev.getD q.1 0) ((p + q.1) &&& 7)
  rw [show (p % 8 + q.1) &&& 7 = (p + q.1) &&& 7 by rw [and7_eq_mod, and7_eq_mod]; omega]

theorem chunkTransform_mod8 (p k1 k3 idx : Nat) (c : List Nat) :
    chunkTransform (p % 8) k1 k3 idx c = chunkTransform p k1 k3 idx c := by
  rw [chunkTransform, chunkTransform]
  apply List.map_congr_left
  intro q _
  change sbox_scramble ((rotl (sbox_scramble q.2) ((p % 8 + idx + q.1) &&& 7) * k3 + k1) &&& 0xFF) =
    sbox_scramble ((rotl (sbox_scramble q.2) ((p + idx + q.1) &&& 7) * k3 + k1) &&& 0xFF)
  rw [show (p % 8 + idx + q.1) &&& 7 = (p + idx + q.1) &&& 7 by
    rw [and7_eq_mod, and7_eq_mod]; omega]

theorem processChunks_none (pos k1 k3 : Nat) (c : List Nat) (rest : List (List Nat))
    (idx : Nat) :
    processChunks pos k1 k3 (c :: rest) none idx =
      global_mix (chunkTransform pos k1 k3 idx (global_mix c)) ++
        processChunks pos k1 k3 rest
          (some (global_mix (chunkTransform pos k1 k3 idx (global_mix c)))) (idx + 1) := rfl

theorem processChunks_some (pos k1 k3 : Nat) (c pr : List Nat) (rest : List (List Nat))
    (idx : Nat) :
    processChunks pos k1 k3 (c :: rest) (some pr) idx =
      global_mix (chunkTransform pos k1 k3 idx (global_mix (mixWithPrev pos pr c))) ++
        processChunks pos k1 k3 rest
          (some (global_mix (chunkTransform pos k1 k3 idx (global_mix (mixWithPrev pos pr c)))))
          (idx + 1) := rfl

theorem processChunks_mod8 :
    ∀ (chunks : List (List Nat)) (prev : Option (List Nat)) (idx p k1 k3 : Nat),
    processChunks (p % 8) k1 k3 chunks prev idx = processChunks p k1 k3 chunks prev idx := by
  intro chunks
  induction chunks with
  | nil => intro prev idx p k1 k3; rfl
  | cons c rest ih =>
    intro prev idx p k1 k3
    cases prev with
    | none =>
      rw [processChunks_none, processChunks_none, chunkTransform_mod8, ih]
    | some pr =>
      rw [processChunks_some, processChunks_some, mixWithPrev_mod8, chunkTransform_mod8, ih]

theorem padBufferAux_no (sz pb k3 fuel : Nat) (buf : List Nat)
    (h : ¬ buf.length < sz) : padBufferAux sz pb k3 fuel buf = buf := by
  cases fuel with
  | zero => rfl
  | succ n => rw [padBufferAux, if_neg h]

theorem mix_mod8 (block : List Nat) (h : 16 ≤ block.length) (p : Nat) :
    enhanced_block_mixing block p = enhanced_block_mixing block (p % 8) := by
  have hsz : max 16 block.length = block.length := Nat.max_eq_right h
  rw [enhanced_block_mixing, enhanced_block_mixing]
  rw [show PRIMES.length = 8 from rfl, show MULTIPLIERS.length = 7 from rfl, hsz]
  rw [show (p % 8 * 3) % 8 = (p * 3) % 8 by omega,
    show (p % 8 * 5 + 1) % 8 = (p * 5 + 1) % 8 by omega,
    show (p % 8 * 7) % 7 = (p * 7) % 7 by omega]
  rw [padBufferAux_no _ _ _ _ _ (by omega), padBufferAux_no _ _ _ _ _ (by omega)]
  rw [processChunks_mod8]

/-- C3: for a full 64-byte block, `enhanced_block_mixing` depends on the
position only through `position mod 8`: the constants are
`k1 = PRIMES[(3p) mod 8]`, `k2 = PRIMES[(5p+1) mod 8]`,
`k3 = MULTIPLIERS[(7p) mod 7] = MULTIPLIERS[0]`, every rotation amount is
reduced mod 8, and the only raw uses of the position sit in padding branches
that a 64-byte block never reaches. -/
theorem claim_C3_position_mod8 (block : List Nat) (h : block.length = 64) (p : Nat) :
    enhanced_block_mixing block p = enhanced_block_mixing block (p % 8) :=
  mix_mod8 block (by omega) p

/-- C3 witness: the statement at the all-zero 64-byte block and position 13. -/
theorem claim_C3_witness :
    zeros64.length = 64 ∧
    enhanced_block_mixing zeros64 13 = enhanced_block_mixing zeros64 (13 % 8) :=
  ⟨by simp [zeros64], claim_C3_position_mod8 zeros64 (by simp [zeros64]) 13⟩

/-- C2 counterexample: positions 0 and 8 are distinct, yet mixing the same
64-byte all-zero block at them yields the same MixedBlock, because the mixer
depends on the position only through `position mod 8`. -/
theorem claim_C2_counterexample :
    (0 : Nat) ≠ 8 ∧ enhanced_block_mixing zeros64 0 = enhanced_block_mixing zeros64 8 := by
  refine ⟨by decide, ?_⟩
  have h := mix_mod8 zeros64 (by simp [zeros64]) 8
  norm_num at h
  exact h.symm

/-- C2 (amended): mixing the same 64-byte block at two different positions
yields equal MixedBlocks whenever the positions agree mod 8; position
sensitivity can hold at most up to `position mod 8`. -/
theorem claim_C2_position_sensitivity (block : List Nat) (h : block.length = 64)
    (p1 p2 : Nat) (hp : p1 % 8 = p2 % 8) :
    enhanced_block_mixing block p1 = enhanced_block_mixing block p2 := by
  rw [mix_mod8 block (by omega) p1, mix_mod8 block (by omega) p2, hp]

/-- C2 witness: the amended statement at positions 1 and 9. -/
theorem claim_C2_witness :
    zeros64.length = 64 ∧ (1 : Nat) % 8 = 9 % 8 ∧
    enhanced_block_mixing zeros64 1 = enhanced_block_mixing zeros64 9 :=
  ⟨by simp [zeros64], by decide,
   claim_C2_position_sensitivity zeros64 (by simp [zeros64]) 1 9 (by decide)⟩

/-- C4: the JIT block mixer does not compute the same output as the pure
mixer: already on the 3-byte block [97, 98, 99] at position 2 the two
disagree (the JIT path omits the value-dependent permutation step, the
long-run repair and the `balance_byte` pass), so the accelerated digest
strategy is not bit-identical to the pure one. -/
theorem claim_C4_jit_differs :
    enhancedBlockMixingJit [97, 98, 99] 2 ≠ enhanced_block_mixing [97, 98, 99] 2 := by
  decide

end SHA1E3
